import Mathlib

/-!
Verification of the spatio-temporal matchup engine of incubator-sdap-nexus.

The definitions below are a shallow embedding of the code in
analysis/webservice/algorithms_spark/Matchup.py and
data-access/nexustiles/nexustiles.py.

Modelling conventions:
* Python floats are modelled as rationals.  Timestamps are integers
  (seconds since the epoch); the source stores ISO-8601 strings and
  re-parses them with iso_time_to_epoch, an exact round trip for whole
  seconds, so the embedding keeps the epoch integer directly.
* The WGS84 ellipsoidal inverse distance (pyproj Geod.inv) and the
  cosine used by add_meters_to_lon_lat are transcendental library
  functions; they are abstracted as function parameters (dist, cosd).
  Theorems quantify over them, so they hold for the library functions.
* The azimuthal-equidistant projection (pyproj Proj aeqd) is likewise a
  function parameter (proj).
* Spark RDD stages are modelled on per-partition lists: mapPartitions
  output becomes a list of (primary, secondary) pairs, filter becomes
  List.filter, reduceByKey and combineByKey fold the values of each key
  in list order (the sequential per-partition semantics).
* numpy masked arrays become lists of (value, mask) pairs for the 1-D
  latitude/longitude arrays and a 3-D Bool list (time, lat, lon) for the
  data mask.  Reading past the end of an array is modelled as a masked
  default, which a well-shaped tile never reaches.  The newaxis
  broadcasting of mask_tiles_to_bbox is modelled exactly as written in
  the source, including its misalignment with the data layout and the
  IndexError ma.masked_where raises on a shape mismatch (an Except
  error value).
-/

namespace NexusMatchup

/-- Canonical point produced by the matchup (class DomsPoint in
Matchup.py), restricted to the fields the matchup pipeline reads:
coordinates, the timestamp and the identity string. -/
structure DomsPoint where
  longitude : ℚ
  latitude : ℚ
  time : ℤ
  data_id : String
deriving DecidableEq

/-- One record returned by the secondary point source (an edge point
dict), restricted to the fields DomsPoint.from_edge_point reads. -/
structure EdgePoint where
  longitude : ℚ
  latitude : ℚ
  time : ℤ
  source : String
  recId : Option String
deriving DecidableEq

/-- A tile: 1-D masked latitude/longitude arrays, times, and the 3-D
data mask indexed as (time, lat, lon), matching valid_indices usage
idx[0]=time, idx[1]=lat, idx[2]=lon in Matchup.py. -/
structure Tile where
  tile_id : ℕ
  dataset : String
  times : List ℤ
  latitudes : List (ℚ × Bool)
  longitudes : List (ℚ × Bool)
  dataMask : List (List (List Bool))
deriving DecidableEq

/-- A bounding box, in the field order (min_lon, min_lat, max_lon,
max_lat) used by shapely bounds. -/
structure BBox where
  min_lon : ℚ
  min_lat : ℚ
  max_lon : ℚ
  max_lat : ℚ
deriving DecidableEq

/-- A polygon given by its nonempty vertex list (shapely Polygon). -/
structure Poly where
  first : ℚ × ℚ
  rest : List (ℚ × ℚ)
deriving DecidableEq

/-- The expanded, clipped spatial/temporal window a partition searches
for secondary points. -/
structure SearchExtent where
  min_lon : ℚ
  min_lat : ℚ
  max_lon : ℚ
  max_lat : ℚ
  min_time : ℤ
  max_time : ℤ
deriving DecidableEq

/-- One page of the paginated point-source API response used by
query_edge: the results of the page, the advertised total, and the
optional continuation link. -/
structure EdgePage (α : Type) where
  results : List α
  total : ℕ
  next : Option String
deriving DecidableEq

/-- The response object built by Matchup.calc (DomsQueryResults),
restricted to the result list and the explicitly passed status code
(none when the constructor default is used). -/
structure DomsQueryResults (α : Type) where
  results : Option (List α)
  status_code : Option ℕ
deriving DecidableEq

section KeyValue

variable {K V : Type} [DecidableEq K]

/-- The distinct keys of a key-value list, in first-appearance order. -/
def keysOf (l : List (K × V)) : List K :=
  (l.map Prod.fst).dedup

/-- All values attached to key k, in list order.  This is the grouping
a Spark shuffle performs on a single partition. -/
def valuesFor (k : K) (l : List (K × V)) : List V :=
  (l.filter (fun kv => decide (kv.1 = k))).map Prod.snd

/-- Spark reduceByKey on one partition: for each key, fold its values
with f in arrival order. -/
def reduceByKey (f : V → V → V) (l : List (K × V)) : List (K × V) :=
  (keysOf l).filterMap (fun k =>
    match valuesFor k l with
    | [] => none
    | v :: vs => some (k, vs.foldl f v))

/-- Spark combineByKey on one partition with the lambdas of
spark_matchup_driver: create a one-element list, then append each
further value. -/
def combineByKey (l : List (K × V)) : List (K × List V) :=
  (keysOf l).filterMap (fun k =>
    match valuesFor k l with
    | [] => none
    | v :: vs => some (k, vs.foldl (fun value_list value => value_list ++ [value]) [v]))

/-- Looking a key up in the collected result map. -/
def lookupKey (k : K) (l : List (K × V)) : Option V :=
  (l.find? (fun kv => decide (kv.1 = k))).map Prod.snd

end KeyValue

/-- The rdd.filter stage of spark_matchup_driver: keep only candidate
pairs whose absolute time difference is within the time tolerance. -/
def timeFilter (time_tolerance : ℤ) (pairs : List (DomsPoint × DomsPoint)) :
    List (DomsPoint × DomsPoint) :=
  pairs.filter (fun pm => decide (|pm.1.time - pm.2.time| ≤ time_tolerance))

/-- The match-once tail of spark_matchup_driver: attach the geodesic
distance to each candidate, keep the minimum-distance candidate per key
with reduceByKey, then wrap the survivor in a one-element list.  The
WGS84 inverse geodesic of pyproj is the dist parameter. -/
def matchOnceReduce (dist : DomsPoint → DomsPoint → ℚ)
    (rdd_filtered : List (DomsPoint × DomsPoint)) : List (DomsPoint × List DomsPoint) :=
  (reduceByKey (fun match_1 match_2 => if match_1.2 < match_2.2 then match_1 else match_2)
      (rdd_filtered.map (fun pm => (pm.1, (pm.2, dist pm.1 pm.2))))).map
    (fun kv => (kv.1, [kv.2.1]))

/-- The aggregation part of spark_matchup_driver, applied to the
candidate pairs one partition generated: temporal filter, then either
the match-once reduction or the match-all grouping, collected as a
map. -/
def spark_matchup_driver (match_once : Bool) (time_tolerance : ℤ)
    (dist : DomsPoint → DomsPoint → ℚ) (pairs : List (DomsPoint × DomsPoint)) :
    List (DomsPoint × List DomsPoint) :=
  let rdd_filtered := timeFilter time_tolerance pairs
  if match_once then matchOnceReduce dist rdd_filtered
  else combineByKey rdd_filtered

/-- determine_parllelism in Matchup.py.  Python 3 division of two ints
is exact real division, so the result is a rational; pyspark truncates
it to an int only at the point of use. -/
def determine_parllelism (num_tiles : ℕ) : ℚ :=
  max (min ((num_tiles : ℚ) / 140) 128) 8

/-- add_meters_to_lon_lat in Matchup.py; cosd abstracts the composite
cos(radians(lat)) of the math library. -/
def add_meters_to_lon_lat (cosd : ℚ → ℚ) (lon lat meters : ℚ) : ℚ × ℚ :=
  (lon + meters / 111111 * cosd lat, lat + meters / 111111)

/-- The extent computation of match_satellite_to_insitu: expand the
partition tile bbox by the radius tolerance, clip it to the search
domain bounds with max/min, and widen the time window by the time
tolerance. -/
def partition_search_extent (cosd : ℚ → ℚ) (tiles_bbox : BBox)
    (tiles_min_time tiles_max_time : ℤ) (rt : ℚ) (tt : ℤ) (search_domain : BBox) :
    SearchExtent :=
  let lo := add_meters_to_lon_lat cosd tiles_bbox.min_lon tiles_bbox.min_lat (-1 * rt)
  let hi := add_meters_to_lon_lat cosd tiles_bbox.max_lon tiles_bbox.max_lat rt
  { min_lon := max lo.1 search_domain.min_lon
    min_lat := max lo.2 search_domain.min_lat
    max_lon := min hi.1 search_domain.max_lon
    max_lat := min hi.2 search_domain.max_lat
    min_time := tiles_min_time - tt
    max_time := tiles_max_time + tt }

/-- numpy ma.masked_outside: additionally mask every value outside the
closed interval from lo to hi. -/
def masked_outside (lo hi : ℚ) (arr : List (ℚ × Bool)) : List (ℚ × Bool) :=
  arr.map (fun vm => (vm.1, vm.2 || decide (vm.1 < lo) || decide (hi < vm.1)))

/-- The mask flag of a masked 1-D array at an index; out of range reads
as masked. -/
def maskAt (arr : List (ℚ × Bool)) (i : ℕ) : Bool :=
  (arr.getD i (0, true)).2

/-- The value of a masked 1-D array at an index. -/
def valueAt (arr : List (ℚ × Bool)) (i : ℕ) : ℚ :=
  (arr.getD i (0, true)).1

/-- The data mask flag of a tile at an index triple; out of range reads
as masked. -/
def Tile.maskedAt (t : Tile) (ti li gi : ℕ) : Bool :=
  ((t.dataMask.getD ti []).getD li []).getD gi true

/-- The rectangular shape of a 3-D numpy Boolean array rendered as a
nested list: none when the nesting is ragged, which no numpy array
is. -/
def shape3 (m : List (List (List Bool))) : Option (ℕ × ℕ × ℕ) :=
  let d1 := (m.headD []).length
  let d2 := ((m.headD []).headD []).length
  if m.all (fun plane => plane.length = d1 && plane.all (fun row => row.length = d2))
  then some (m.length, d1, d2) else none

/-- The body of the loop of NexusTileService.mask_tiles_to_bbox for one
tile.  The latitude and longitude arrays are masked outside the box.
The combined data mask is then built with newaxis broadcasting that is
misaligned with the (time, lat, lon) data layout: the latitude mask is
placed on axis 0 (the time axis) and the longitude mask on axis 1 (the
latitude axis); the third term, built from times[0] repeated over
data.shape[-1], is an all-False row on axis 2.  The condition array
therefore has shape (len(latitudes), len(longitudes), data.shape[-1]),
and ma.masked_where raises IndexError whenever that differs from the
data shape, i.e. unless len(latitudes) equals the time dimension and
len(longitudes) equals the latitude dimension; when the shapes agree,
masked_where ORs the condition with the existing data mask.  So the
resulting mask at data index (a, b, c) is
lat_mask[a] or lon_mask[b] or old_mask[a][b][c]. -/
def mask_tile_to_bbox (min_lat max_lat min_lon max_lon : ℚ) (t : Tile) :
    Except String Tile :=
  let lats := masked_outside min_lat max_lat t.latitudes
  let lons := masked_outside min_lon max_lon t.longitudes
  match shape3 t.dataMask with
  | none => Except.error "Inconsistent shape between the condition and the input"
  | some s =>
    if lats.length = s.1 ∧ lons.length = s.2.1 then
      Except.ok { t with
        latitudes := lats
        longitudes := lons
        dataMask :=
          (List.range lats.length).map (fun a =>
            (List.range lons.length).map (fun b =>
              (List.range s.2.2).map (fun c =>
                maskAt lats a || maskAt lons b || t.maskedAt a b c))) }
    else Except.error "Inconsistent shape between the condition and the input"

/-- tile.data.mask.all(): every sample of the tile is masked (vacuously
true for an empty grid, as in numpy). -/
def Tile.allMasked (t : Tile) : Bool :=
  t.dataMask.all (fun plane => plane.all (fun row => row.all (fun b => b)))

/-- The for-loop of NexusTileService.mask_tiles_to_bbox: mask each tile
in turn; an IndexError raised by masked_where propagates out of the
whole call. -/
def mask_each_tile (min_lat max_lat min_lon max_lon : ℚ) :
    List Tile → Except String (List Tile)
  | [] => Except.ok []
  | t :: rest =>
    match mask_tile_to_bbox min_lat max_lat min_lon max_lon t with
    | Except.error e => Except.error e
    | Except.ok t2 =>
      match mask_each_tile min_lat max_lat min_lon max_lon rest with
      | Except.error e => Except.error e
      | Except.ok rest2 => Except.ok (t2 :: rest2)

/-- NexusTileService.mask_tiles_to_bbox: mask every tile to the box
(propagating a masking IndexError), then drop the tiles whose data
became fully masked. -/
def mask_tiles_to_bbox (min_lat max_lat min_lon max_lon : ℚ) (tiles : List Tile) :
    Except String (List Tile) :=
  match mask_each_tile min_lat max_lat min_lon max_lon tiles with
  | Except.error e => Except.error e
  | Except.ok masked => Except.ok (masked.filter (fun t => !t.allMasked))

/-- shapely polygon bounds: (min_lon, min_lat, max_lon, max_lat) over
the vertices. -/
def Poly.bounds (p : Poly) : BBox :=
  p.rest.foldl
    (fun b v =>
      { min_lon := min b.min_lon v.1
        min_lat := min b.min_lat v.2
        max_lon := max b.max_lon v.1
        max_lat := max b.max_lat v.2 })
    { min_lon := p.first.1, min_lat := p.first.2, max_lon := p.first.1, max_lat := p.first.2 }

/-- NexusTileService.mask_tiles_to_polygon: take the bounds of the
polygon and mask to that box. -/
def mask_tiles_to_polygon (bounding_polygon : Poly) (tiles : List Tile) :
    Except String (List Tile) :=
  let b := bounding_polygon.bounds
  mask_tiles_to_bbox b.min_lat b.max_lat b.min_lon b.max_lon tiles

/-- Modelled from the spec: Tile.get_indices of the tile model
(nexusmodel.py, not under src) returns the list of valid (unmasked)
sample indices of the data array, in row-major (time, lat, lon)
order. -/
def Tile.get_indices (t : Tile) : List (ℕ × ℕ × ℕ) :=
  (List.range t.dataMask.length).flatMap (fun ti =>
    let plane := t.dataMask.getD ti []
    (List.range plane.length).flatMap (fun li =>
      let row := plane.getD li []
      (List.range row.length).filterMap (fun gi =>
        if row.getD gi true then none else some (ti, li, gi))))

/-- Cross product of the vectors oa and ob, used to state point-in-
polygon for the convex polygons of the counterexample. -/
def cross (o a b : ℚ × ℚ) : ℚ :=
  (a.1 - o.1) * (b.2 - o.2) - (a.2 - o.2) * (b.1 - o.1)

/-- The edges of a polygon, each vertex paired with its successor. -/
def Poly.edges (p : Poly) : List ((ℚ × ℚ) × (ℚ × ℚ)) :=
  (p.first :: p.rest).zip (p.rest ++ [p.first])

/-- Membership in a convex polygon whose vertices are listed counter-
clockwise: the point is on the left of (or on) every edge. -/
def Poly.containsConvexCCW (p : Poly) (pt : ℚ × ℚ) : Bool :=
  p.edges.all (fun e => decide (0 ≤ cross e.1 e.2 pt))

/-- Squared Euclidean distance in the projected plane. -/
def sq_dist (a b : ℚ × ℚ) : ℚ :=
  (a.1 - b.1) ^ 2 + (a.2 - b.2) ^ 2

/-- cKDTree.query_ball_tree for one primary point: the indices of all
matchup points within the radius tolerance in the projected plane. -/
def ball_query (pts : List (ℚ × ℚ)) (c : ℚ × ℚ) (r : ℚ) : List ℕ :=
  (List.range pts.length).filter (fun j => decide (sq_dist (pts.getD j (0, 0)) c ≤ r ^ 2))

/-- DomsPoint.from_nexus_point: build the primary canonical point from
the tile values at a valid index triple. -/
def DomsPoint.from_tile_point (t : Tile) (idx : ℕ × ℕ × ℕ) : DomsPoint :=
  { data_id := toString t.tile_id ++ "[" ++ toString idx.1 ++ "," ++ toString idx.2.1
      ++ "," ++ toString idx.2.2 ++ "]"
    longitude := valueAt t.longitudes idx.2.2
    latitude := valueAt t.latitudes idx.2.1
    time := t.times.getD idx.1 0 }

/-- DomsPoint.from_edge_point: build the secondary canonical point from
an edge record; without a record id the identity string is
time:longitude:latitude. -/
def DomsPoint.from_edge_point (e : EdgePoint) : DomsPoint :=
  { longitude := e.longitude
    latitude := e.latitude
    time := e.time
    data_id :=
      match e.recId with
      | some i => i
      | none => toString e.time ++ ":" ++ toString e.longitude ++ ":" ++ toString e.latitude }

/-- tile_to_edge_points in Matchup.py: every valid sample of a
secondary tile becomes an edge record (with no record id). -/
def tile_to_edge_points (t : Tile) : List EdgePoint :=
  t.get_indices.map (fun idx =>
    { longitude := valueAt t.longitudes idx.2.2
      latitude := valueAt t.latitudes idx.2.1
      time := t.times.getD idx.1 0
      source := t.dataset
      recId := none })

/-- match_tile_to_point_generator: mask the tile to the search domain
polygon inside a try whose except IndexError handler skips the tile.
Both IndexError sources are caught by that one handler: the shape
mismatch ma.masked_where raises, and the index [0] applied to the
empty list left when the fully masked tile was dropped.  Otherwise,
for every valid sample, query the matchup tree and yield a candidate
pair per matched secondary point. -/
def match_tile_to_point_generator (search_domain : Poly) (radius_tolerance : ℚ)
    (proj : ℚ × ℚ → ℚ × ℚ) (m_points : List (ℚ × ℚ)) (edge_results : List EdgePoint)
    (tile : Tile) : List (DomsPoint × DomsPoint) :=
  match mask_tiles_to_polygon search_domain [tile] with
  | Except.error _ => []
  | Except.ok [] => []
  | Except.ok (t :: _) =>
    let valid_indices := t.get_indices
    (List.range valid_indices.length).flatMap (fun i =>
      let idx := valid_indices.getD i (0, 0, 0)
      let ppt := proj (valueAt t.longitudes idx.2.2, valueAt t.latitudes idx.2.1)
      let point_matches := ball_query m_points ppt radius_tolerance
      if 0 < point_matches.length then
        let p_doms_point := DomsPoint.from_tile_point t idx
        point_matches.map (fun j =>
          (p_doms_point, DomsPoint.from_edge_point
            (edge_results.getD j { longitude := 0, latitude := 0, time := 0, source := "", recId := none })))
      else [])

/-- The candidate pairs of one partition: the chain of the per-tile
generators. -/
def partition_matches (search_domain : Poly) (radius_tolerance : ℚ)
    (proj : ℚ × ℚ → ℚ × ℚ) (m_points : List (ℚ × ℚ)) (edge_results : List EdgePoint)
    (tiles : List Tile) : List (DomsPoint × DomsPoint) :=
  tiles.flatMap
    (match_tile_to_point_generator search_domain radius_tolerance proj m_points edge_results)

/-- scipy cKDTree construction on np.array(points): np.array of an
empty Python list is a 1-D empty array, and cKDTree raises ValueError
for data that is not 2-D; a nonempty list of coordinate pairs is a 2-D
array and construction succeeds. -/
def cKDTree_build (pts : List (ℚ × ℚ)) : Except String (List (ℚ × ℚ)) :=
  if pts.isEmpty then Except.error "data must be 2 dimensions" else Except.ok pts

/-- The in-situ variant of match_satellite_to_insitu, with the network
interactions replaced by their results: edge_results is the
concatenated pagination output for the partition extent.  An empty
partition or zero edge results return no matches; otherwise the matchup
points are projected into a 2-D ndarray, the tree is built and the
per-tile generators run. -/
def match_satellite_to_insitu_insitu (tiles : List Tile) (edge_results : List EdgePoint)
    (search_domain : Poly) (radius_tolerance : ℚ) (proj : ℚ × ℚ → ℚ × ℚ) :
    Except String (List (DomsPoint × DomsPoint)) :=
  if tiles.isEmpty then Except.ok []
  else if edge_results.isEmpty then Except.ok []
  else
    let matchup_points := edge_results.map (fun e => proj (e.longitude, e.latitude))
    match cKDTree_build matchup_points with
    | Except.error e => Except.error e
    | Except.ok m_points =>
      Except.ok (partition_matches search_domain radius_tolerance proj m_points edge_results tiles)

/-- The gridded variant of match_satellite_to_insitu, with the tile
store query replaced by its result matchup_tiles.  The valid samples of
the secondary tiles are projected into matchup_points with np.array and
the tree is built on them with no emptiness guard, then the per-tile
generators run. -/
def match_satellite_to_insitu_gridded (tiles : List Tile) (matchup_tiles : List Tile)
    (search_domain : Poly) (radius_tolerance : ℚ) (proj : ℚ × ℚ → ℚ × ℚ) :
    Except String (List (DomsPoint × DomsPoint)) :=
  if tiles.isEmpty then Except.ok []
  else
    let matchup_points := matchup_tiles.flatMap (fun t =>
      t.get_indices.map (fun idx =>
        proj (valueAt t.longitudes idx.2.2, valueAt t.latitudes idx.2.1)))
    let edge_results := matchup_tiles.flatMap tile_to_edge_points
    match cKDTree_build matchup_points with
    | Except.error e => Except.error e
    | Except.ok m_points =>
      Except.ok (partition_matches search_domain radius_tolerance proj m_points edge_results tiles)

/-- The pagination loop of query_edge, with the point-source API
replaced by the sequence of pages it serves: the first page becomes the
response, every further page extends its results, and the loop stops
when the page continuation is absent or the sentinel NA. -/
def query_edge_go {α : Type} : List (EdgePage α) → Option (EdgePage α) → Option (EdgePage α)
  | [], acc => acc
  | p :: rest, acc =>
    let acc2 :=
      match acc with
      | none => p
      | some r => { r with results := r.results ++ p.results }
    match p.next with
    | none => some acc2
    | some u => if u = "NA" then some acc2 else query_edge_go rest (some acc2)

/-- query_edge in Matchup.py on a served page sequence; none models the
empty initial dict (no page was served). -/
def query_edge {α : Type} (pages : List (EdgePage α)) : Option (EdgePage α) :=
  query_edge_go pages none

/-- The hypothesis of the pagination claim: every page but the last
carries a continuation that is not the NA sentinel, and the last page
carries none. -/
def chainNext {α : Type} : List (EdgePage α) → Bool
  | [] => true
  | [p] => p.next.isNone
  | p :: q :: rest =>
    (match p.next with
     | none => false
     | some u => decide (u ≠ "NA")) && chainNext (q :: rest)

/-- The result-size branch at the end of Matchup.calc: with a positive
limit smaller than the number of primary matches the response carries
no results and status code 202; otherwise it carries the complete match
list and the constructor default status. -/
def calc_result {α : Type} (match_list : List α) (result_size_limit : ℕ) :
    DomsQueryResults α :=
  if 0 < result_size_limit ∧ result_size_limit < match_list.length then
    { results := none, status_code := some 202 }
  else
    { results := some match_list, status_code := none }

/-! Concrete data used by witnesses and by the counterexample. -/

/-- Witness primary point. -/
def wP : DomsPoint :=
  { longitude := 0, latitude := 0, time := 0, data_id := "p" }

/-- Witness secondary point at distance 1 from the primary. -/
def wS1 : DomsPoint :=
  { longitude := 1, latitude := 0, time := 3, data_id := "s1" }

/-- Witness secondary point at distance 2 from the primary. -/
def wS2 : DomsPoint :=
  { longitude := 2, latitude := 0, time := 5, data_id := "s2" }

/-- Witness distance function standing in for the abstract geodesic. -/
def wDist (a b : DomsPoint) : ℚ :=
  |a.longitude - b.longitude|

/-- Witness candidate pair list for one partition. -/
def wPairs : List (DomsPoint × DomsPoint) :=
  [(wP, wS1), (wP, wS2)]

/-- Witness tile with one valid sample at longitude 1, latitude 1. -/
def exTile : Tile :=
  { tile_id := 1, dataset := "sat", times := [100], latitudes := [(1, false)],
    longitudes := [(1, false)], dataMask := [[[false]]] }

/-- Witness search polygon: the square with corners (0,0) and (4,4),
counter-clockwise. -/
def exPoly : Poly :=
  { first := (0, 0), rest := [(4, 0), (4, 4), (0, 4)] }

/-- Counterexample polygon: the triangle (0,0), (4,0), (0,4), counter-
clockwise. -/
def triPoly : Poly :=
  { first := (0, 0), rest := [(4, 0), (0, 4)] }

/-- Counterexample tile: one valid sample at longitude 39/10, latitude
39/10, inside the triangle bounding box but outside the triangle. -/
def c6Tile : Tile :=
  { tile_id := 2, dataset := "sat", times := [100], latitudes := [(39/10, false)],
    longitudes := [(39/10, false)], dataMask := [[[false]]] }

/-- Witness tile whose only sample sits at latitude 10 and is therefore
fully masked by the square search polygon. -/
def farTile : Tile :=
  { tile_id := 3, dataset := "sat", times := [100], latitudes := [(10, false)],
    longitudes := [(1, false)], dataMask := [[[false]]] }

/-- The result of masking farTile to the square search polygon: the
latitude is masked and so is the single data sample. -/
def farTileMasked : Tile :=
  { tile_id := 3, dataset := "sat", times := [100], latitudes := [(10, true)],
    longitudes := [(1, false)], dataMask := [[[true]]] }

/-- Witness page sequence for the pagination claim. -/
def wPages : List (EdgePage ℕ) :=
  [{ results := [1, 2], total := 3, next := some "page2" },
   { results := [3], total := 3, next := none }]

/-! Helper lemmas. -/

section KeyValueLemmas

variable {K V W : Type} [DecidableEq K]

theorem mem_valuesFor {k : K} {v : V} {l : List (K × V)} :
    v ∈ valuesFor k l ↔ (k, v) ∈ l := by
  simp only [valuesFor, List.mem_map, List.mem_filter, decide_eq_true_eq]
  constructor
  · rintro ⟨⟨k1, v1⟩, ⟨hmem, hk⟩, hv⟩
    simp only at hk hv
    subst hk; subst hv; exact hmem
  · intro h
    exact ⟨(k, v), ⟨h, rfl⟩, rfl⟩

theorem mem_keysOf {k : K} {l : List (K × V)} :
    k ∈ keysOf l ↔ ∃ v, (k, v) ∈ l := by
  simp only [keysOf, List.mem_dedup, List.mem_map]
  constructor
  · rintro ⟨⟨k1, v1⟩, hmem, hk⟩
    simp only at hk
    subst hk; exact ⟨v1, hmem⟩
  · rintro ⟨v, hv⟩
    exact ⟨(k, v), hv, rfl⟩

theorem find?_filterMap_keyed {F : K → Option (K × V)}
    (hF : ∀ k1 kv, F k1 = some kv → kv.1 = k1) :
    ∀ (ks : List K) (k : K), k ∈ ks → ∀ res, F k = some res →
      (ks.filterMap F).find? (fun kv => decide (kv.1 = k)) = some res := by
  intro ks
  induction ks with
  | nil => intro k hk; cases hk
  | cons a as ih =>
    intro k hk res hres
    rw [List.filterMap_cons]
    cases hFa : F a with
    | none =>
      have hka : k ≠ a := by
        rintro rfl; rw [hres] at hFa; cases hFa
      have hkas : k ∈ as := by
        rcases List.mem_cons.mp hk with h | h
        · exact absurd h hka
        · exact h
      exact ih k hkas res hres
    | some kv =>
      have hkv1 : kv.1 = a := hF a kv hFa
      by_cases hka : k = a
      · subst hka
        have hkvres : kv = res := by rw [hres] at hFa; exact (Option.some.inj hFa).symm
        subst hkvres
        rw [List.find?_cons]
        simp [hkv1]
      · have hkas : k ∈ as := by
          rcases List.mem_cons.mp hk with h | h
          · exact absurd h hka
          · exact h
        have hcond : (decide (kv.1 = k)) = false := by
          simp only [decide_eq_false_iff_not]
          rw [hkv1]
          exact fun h => hka h.symm
        rw [List.find?_cons, hcond]
        exact ih k hkas res hres

theorem lookupKey_reduceByKey (f : V → V → V) (l : List (K × V)) (k : K) :
    lookupKey k (reduceByKey f l) =
      match valuesFor k l with
      | [] => none
      | v :: vs => some (vs.foldl f v) := by
  cases hv : valuesFor k l with
  | nil =>
    unfold lookupKey
    rw [List.find?_eq_none.mpr ?_]
    · rfl
    · intro x hx
      simp only [reduceByKey, List.mem_filterMap] at hx
      obtain ⟨k1, hk1, hx1⟩ := hx
      cases hv1 : valuesFor k1 l with
      | nil => rw [hv1] at hx1; cases hx1
      | cons w ws =>
        rw [hv1] at hx1
        have hxval : x = (k1, ws.foldl f w) := (Option.some.inj hx1).symm
        subst hxval
        simp only [decide_eq_true_eq]
        rintro rfl
        rw [hv] at hv1; cases hv1
  | cons v vs =>
    have hF : ∀ k1 kv, (fun k2 =>
        match valuesFor k2 l with
        | [] => none
        | w :: ws => some (k2, ws.foldl f w)) k1 = some kv → kv.1 = k1 := by
      intro k1 kv hkv
      have hkv2 : (match valuesFor k1 l with
          | [] => none
          | w :: ws => some (k1, ws.foldl f w)) = some kv := hkv
      cases hv1 : valuesFor k1 l with
      | nil => rw [hv1] at hkv2; cases hkv2
      | cons w ws =>
        rw [hv1] at hkv2
        rw [← Option.some.inj hkv2]
    have hkmem : k ∈ keysOf l := by
      refine mem_keysOf.mpr ⟨v, mem_valuesFor.mp ?_⟩
      rw [hv]; exact List.mem_cons_self v vs
    have hFk : (fun k2 =>
        match valuesFor k2 l with
        | [] => none
        | w :: ws => some (k2, ws.foldl f w)) k = some (k, vs.foldl f v) := by
      show (match valuesFor k l with
          | [] => none
          | w :: ws => some (k, ws.foldl f w)) = some (k, vs.foldl f v)
      rw [hv]
    unfold lookupKey reduceByKey
    rw [find?_filterMap_keyed hF (keysOf l) k hkmem _ hFk]
    rfl

theorem foldl_append_singleton (vs : List V) (acc : List V) :
    vs.foldl (fun value_list value => value_list ++ [value]) acc = acc ++ vs := by
  induction vs generalizing acc with
  | nil => simp
  | cons w ws ih =>
    rw [List.foldl_cons, ih]
    simp

theorem lookupKey_combineByKey (l : List (K × V)) (k : K) :
    lookupKey k (combineByKey l) =
      match valuesFor k l with
      | [] => none
      | v :: vs => some (v :: vs) := by
  cases hv : valuesFor k l with
  | nil =>
    unfold lookupKey
    rw [List.find?_eq_none.mpr ?_]
    · rfl
    · intro x hx
      simp only [combineByKey, List.mem_filterMap] at hx
      obtain ⟨k1, hk1, hx1⟩ := hx
      cases hv1 : valuesFor k1 l with
      | nil => rw [hv1] at hx1; cases hx1
      | cons w ws =>
        rw [hv1] at hx1
        have hxval : x = (k1, ws.foldl (fun value_list value => value_list ++ [value]) [w]) :=
          (Option.some.inj hx1).symm
        subst hxval
        simp only [decide_eq_true_eq]
        rintro rfl
        rw [hv] at hv1; cases hv1
  | cons v vs =>
    have hF : ∀ k1 kv, (fun k2 =>
        match valuesFor k2 l with
        | [] => none
        | w :: ws => some (k2, ws.foldl (fun value_list value => value_list ++ [value]) [w]))
          k1 = some kv → kv.1 = k1 := by
      intro k1 kv hkv
      have hkv2 : (match valuesFor k1 l with
          | [] => none
          | w :: ws => some (k1, ws.foldl (fun value_list value => value_list ++ [value]) [w]))
            = some kv := hkv
      cases hv1 : valuesFor k1 l with
      | nil => rw [hv1] at hkv2; cases hkv2
      | cons w ws =>
        rw [hv1] at hkv2
        rw [← Option.some.inj hkv2]
    have hkmem : k ∈ keysOf l := by
      refine mem_keysOf.mpr ⟨v, mem_valuesFor.mp ?_⟩
      rw [hv]; exact List.mem_cons_self v vs
    have hFk : (fun k2 =>
        match valuesFor k2 l with
        | [] => none
        | w :: ws => some (k2, ws.foldl (fun value_list value => value_list ++ [value]) [w]))
          k = some (k, v :: vs) := by
      show (match valuesFor k l with
          | [] => none
          | w :: ws => some (k, ws.foldl (fun value_list value => value_list ++ [value]) [w]))
            = some (k, v :: vs)
      rw [hv]
      show some (k, vs.foldl (fun value_list value => value_list ++ [value]) [v]) = some (k, v :: vs)
      rw [foldl_append_singleton]
      rfl
    unfold lookupKey combineByKey
    rw [find?_filterMap_keyed hF (keysOf l) k hkmem _ hFk]
    rfl

theorem lookupKey_matchOnce_map {A : Type} (l : List (K × (A × ℚ))) (k : K) :
    lookupKey k (l.map (fun kv => (kv.1, [kv.2.1]))) =
      (lookupKey k l).map (fun x => [x.1]) := by
  unfold lookupKey
  rw [List.find?_map]
  cases h : l.find? (fun kv => decide (kv.1 = k)) with
  | none =>
    have hc : l.find? ((fun kv : K × List A => decide (kv.1 = k)) ∘
        (fun kv : K × (A × ℚ) => (kv.1, [kv.2.1]))) = none := h
    rw [hc]; rfl
  | some kv =>
    have hc : l.find? ((fun kv : K × List A => decide (kv.1 = k)) ∘
        (fun kv : K × (A × ℚ) => (kv.1, [kv.2.1]))) = some kv := h
    rw [hc]; rfl

theorem valuesFor_nodup {p : K} {l : List (K × V)} (hnd : l.Nodup) :
    (valuesFor p l).Nodup := by
  unfold valuesFor
  refine List.Nodup.map_on ?_ (hnd.filter _)
  intro x hx y hy hxy
  have hx1 : x.1 = p := by
    have h := (List.mem_filter.mp hx).2
    simpa using h
  have hy1 : y.1 = p := by
    have h := (List.mem_filter.mp hy).2
    simpa using h
  rw [Prod.ext_iff]
  exact ⟨hx1.trans hy1.symm, hxy⟩

end KeyValueLemmas

theorem minfold_mem {α : Type} (vs : List (α × ℚ)) (v : α × ℚ) :
    vs.foldl (fun m1 m2 => if m1.2 < m2.2 then m1 else m2) v ∈ v :: vs := by
  induction vs generalizing v with
  | nil => simp
  | cons w ws ih =>
    rw [List.foldl_cons]
    have h := ih (if v.2 < w.2 then v else w)
    rcases List.mem_cons.mp h with h1 | h1
    · rw [h1]
      by_cases hlt : v.2 < w.2
      · simp [hlt]
      · simp [hlt]
    · exact List.mem_cons.mpr (Or.inr (List.mem_cons.mpr (Or.inr h1)))

theorem minfold_le {α : Type} (vs : List (α × ℚ)) (v : α × ℚ) :
    ∀ x ∈ v :: vs, (vs.foldl (fun m1 m2 => if m1.2 < m2.2 then m1 else m2) v).2 ≤ x.2 := by
  induction vs generalizing v with
  | nil =>
    intro x hx
    have : x = v := by simpa using hx
    subst this
    simp
  | cons w ws ih =>
    intro x hx
    rw [List.foldl_cons]
    have hle_v : (if v.2 < w.2 then v else w).2 ≤ v.2 := by
      by_cases h : v.2 < w.2
      · simp [h]
      · simp only [if_neg h]
        exact le_of_not_lt h
    have hle_w : (if v.2 < w.2 then v else w).2 ≤ w.2 := by
      by_cases h : v.2 < w.2
      · simp only [if_pos h]
        exact le_of_lt h
      · simp [h]
    have hhead := ih (if v.2 < w.2 then v else w) _ (List.mem_cons_self _ _)
    rcases List.mem_cons.mp hx with h1 | h1
    · subst h1
      exact le_trans hhead hle_v
    · rcases List.mem_cons.mp h1 with h2 | h2
      · subst h2
        exact le_trans hhead hle_w
      · exact ih _ x (List.mem_cons.mpr (Or.inr h2))

theorem mem_timeFilter {tt : ℤ} {pairs : List (DomsPoint × DomsPoint)}
    {pm : DomsPoint × DomsPoint} :
    pm ∈ timeFilter tt pairs ↔ pm ∈ pairs ∧ |pm.1.time - pm.2.time| ≤ tt := by
  simp [timeFilter, List.mem_filter]

theorem match_once_lookup_spec (tt : ℤ) (dist : DomsPoint → DomsPoint → ℚ)
    (pairs : List (DomsPoint × DomsPoint)) (p : DomsPoint) (l : List DomsPoint)
    (h : lookupKey p (spark_matchup_driver true tt dist pairs) = some l) :
    ∃ s, l = [s] ∧ (p, s) ∈ timeFilter tt pairs ∧
      ∀ s2, (p, s2) ∈ timeFilter tt pairs → dist p s ≤ dist p s2 := by
  simp only [spark_matchup_driver, if_true, matchOnceReduce] at h
  rw [lookupKey_matchOnce_map] at h
  rw [lookupKey_reduceByKey] at h
  cases hv : valuesFor p ((timeFilter tt pairs).map
      (fun pm => (pm.1, (pm.2, dist pm.1 pm.2)))) with
  | nil => rw [hv] at h; cases h
  | cons v vs =>
    rw [hv] at h
    have hl : l = [(vs.foldl (fun m1 m2 => if m1.2 < m2.2 then m1 else m2) v).1] :=
      (Option.some.inj h).symm
    set m := vs.foldl (fun m1 m2 => if m1.2 < m2.2 then m1 else m2) v with hm
    have hm_mem : m ∈ v :: vs := minfold_mem vs v
    rw [← hv] at hm_mem
    have hm_pair := mem_valuesFor.mp hm_mem
    rw [List.mem_map] at hm_pair
    obtain ⟨pm, hpm_mem, hpm_eq⟩ := hm_pair
    have hp1 : pm.1 = p := congrArg Prod.fst hpm_eq
    have hm_eq : (pm.2, dist pm.1 pm.2) = m := congrArg Prod.snd hpm_eq
    refine ⟨m.1, hl, ?_, ?_⟩
    · have hm1 : m.1 = pm.2 := by rw [← hm_eq]
      rw [← hp1, hm1]
      exact hpm_mem
    · intro s2 hs2
      have hmem2 : (p, (s2, dist p s2)) ∈ (timeFilter tt pairs).map
          (fun pm => (pm.1, (pm.2, dist pm.1 pm.2))) :=
        List.mem_map.mpr ⟨(p, s2), hs2, rfl⟩
      have hv2 := mem_valuesFor.mpr hmem2
      rw [hv] at hv2
      have hle := minfold_le vs v _ hv2
      have hm2 : m.2 = dist p m.1 := by
        rw [← hm_eq]
        show dist pm.1 pm.2 = dist p pm.2
        rw [hp1]
      rw [← hm2]
      exact hle

theorem match_all_lookup_spec (tt : ℤ) (dist : DomsPoint → DomsPoint → ℚ)
    (pairs : List (DomsPoint × DomsPoint)) (p : DomsPoint) (l : List DomsPoint)
    (h : lookupKey p (spark_matchup_driver false tt dist pairs) = some l) :
    l = valuesFor p (timeFilter tt pairs) ∧ l ≠ [] := by
  simp only [spark_matchup_driver, Bool.false_eq_true, if_false] at h
  rw [lookupKey_combineByKey] at h
  cases hv : valuesFor p (timeFilter tt pairs) with
  | nil => rw [hv] at h; cases h
  | cons v vs =>
    rw [hv] at h
    have : v :: vs = l := Option.some.inj h
    exact ⟨this.symm, by rw [← this]; simp⟩

/-! Claim theorems. -/

/-- C1: under the match-once policy, every primary point key in the
final MatchResult maps to a list of exactly one secondary point, and
that secondary point has the minimum distance (under the geodesic
distance function used by the driver) to the primary point among all
candidate pairs for that primary point that survived the spatial radius
query and the temporal filter. -/
theorem match_once_min_geodesic_distance (tt : ℤ) (dist : DomsPoint → DomsPoint → ℚ)
    (pairs : List (DomsPoint × DomsPoint)) (p : DomsPoint) (l : List DomsPoint)
    (h : lookupKey p (spark_matchup_driver true tt dist pairs) = some l) :
    ∃ s, l = [s] ∧ (p, s) ∈ timeFilter tt pairs ∧
      ∀ s2, (p, s2) ∈ timeFilter tt pairs → dist p s ≤ dist p s2 :=
  match_once_lookup_spec tt dist pairs p l h

/-- Witness for C1 at a concrete input: of the two candidates wS1 and
wS2, the match-once result keeps exactly the nearer wS1. -/
theorem match_once_min_geodesic_distance_witness :
    ∃ s, [wS1] = [s] ∧ (wP, s) ∈ timeFilter 10 wPairs ∧
      ∀ s2, (wP, s2) ∈ timeFilter 10 wPairs → wDist wP s ≤ wDist wP s2 :=
  match_once_min_geodesic_distance 10 wDist wPairs wP [wS1] (by with_unfolding_all decide)

/-- C2: every pair present in the final MatchResult, under either
policy, has an absolute time difference within the time tolerance,
whatever pairs the spatial radius query produced. -/
theorem matchup_result_time_tolerance (match_once : Bool) (tt : ℤ)
    (dist : DomsPoint → DomsPoint → ℚ) (pairs : List (DomsPoint × DomsPoint))
    (p : DomsPoint) (l : List DomsPoint) (s : DomsPoint)
    (hl : lookupKey p (spark_matchup_driver match_once tt dist pairs) = some l)
    (hs : s ∈ l) : |p.time - s.time| ≤ tt := by
  cases match_once with
  | true =>
    obtain ⟨s0, hl0, hmem, -⟩ := match_once_lookup_spec tt dist pairs p l hl
    rw [hl0] at hs
    have hss : s = s0 := by simpa using hs
    subst hss
    exact (mem_timeFilter.mp hmem).2
  | false =>
    obtain ⟨hl0, -⟩ := match_all_lookup_spec tt dist pairs p l hl
    rw [hl0] at hs
    exact (mem_timeFilter.mp (mem_valuesFor.mp hs)).2

/-- Witness for C2 at a concrete input. -/
theorem matchup_result_time_tolerance_witness : |wP.time - wS1.time| ≤ 10 :=
  matchup_result_time_tolerance true 10 wDist wPairs wP [wS1] wS1
    (by with_unfolding_all decide) (by with_unfolding_all decide)

/-- C3: under the match-all policy, for a fixed single-partition pair
list without duplicates, the list keyed by a primary point with a
surviving candidate has no duplicates and holds a secondary point
exactly when the corresponding pair survived the temporal filter: every
surviving candidate pair appears exactly once, with no omissions. -/
theorem match_all_exactly_once (tt : ℤ) (dist : DomsPoint → DomsPoint → ℚ)
    (pairs : List (DomsPoint × DomsPoint)) (p s : DomsPoint)
    (hnd : pairs.Nodup) (hmem : (p, s) ∈ timeFilter tt pairs) :
    ∃ l, lookupKey p (spark_matchup_driver false tt dist pairs) = some l ∧
      l.Nodup ∧ ∀ s2, s2 ∈ l ↔ (p, s2) ∈ timeFilter tt pairs := by
  refine ⟨valuesFor p (timeFilter tt pairs), ?_, ?_, ?_⟩
  · show lookupKey p (combineByKey (timeFilter tt pairs)) =
      some (valuesFor p (timeFilter tt pairs))
    rw [lookupKey_combineByKey]
    cases hv : valuesFor p (timeFilter tt pairs) with
    | nil =>
      exfalso
      have hin := mem_valuesFor.mpr hmem
      rw [hv] at hin
      cases hin
    | cons v vs => rfl
  · exact valuesFor_nodup (hnd.filter _)
  · intro s2
    exact mem_valuesFor

/-- Witness for C3 at a concrete input. -/
theorem match_all_exactly_once_witness :
    ∃ l, lookupKey wP (spark_matchup_driver false 10 wDist wPairs) = some l ∧
      l.Nodup ∧ ∀ s2, s2 ∈ l ↔ (wP, s2) ∈ timeFilter 10 wPairs :=
  match_all_exactly_once 10 wDist wPairs wP wS1 (by with_unfolding_all decide)
    (by with_unfolding_all decide)

/-- C4: for every partition bbox and tolerances at least 0, the clipped
search extent stays inside the requested search domain: its minima are
at least the domain minima and its maxima at most the domain maxima. -/
theorem search_extent_within_domain (cosd : ℚ → ℚ) (tiles_bbox : BBox)
    (tmin tmax : ℤ) (rt : ℚ) (tt : ℤ) (dom : BBox) (_hrt : 0 ≤ rt) (_htt : 0 ≤ tt) :
    dom.min_lon ≤ (partition_search_extent cosd tiles_bbox tmin tmax rt tt dom).min_lon ∧
      dom.min_lat ≤ (partition_search_extent cosd tiles_bbox tmin tmax rt tt dom).min_lat ∧
      (partition_search_extent cosd tiles_bbox tmin tmax rt tt dom).max_lon ≤ dom.max_lon ∧
      (partition_search_extent cosd tiles_bbox tmin tmax rt tt dom).max_lat ≤ dom.max_lat := by
  unfold partition_search_extent
  exact ⟨le_max_right _ _, le_max_right _ _, min_le_right _ _, min_le_right _ _⟩

/-- Witness for C4 at a concrete input. -/
theorem search_extent_within_domain_witness :
    (⟨0, 0, 4, 4⟩ : BBox).min_lon ≤
        (partition_search_extent (fun _ => 1) ⟨1, 1, 3, 3⟩ 0 100 1000 3600 ⟨0, 0, 4, 4⟩).min_lon ∧
      (⟨0, 0, 4, 4⟩ : BBox).min_lat ≤
        (partition_search_extent (fun _ => 1) ⟨1, 1, 3, 3⟩ 0 100 1000 3600 ⟨0, 0, 4, 4⟩).min_lat ∧
      (partition_search_extent (fun _ => 1) ⟨1, 1, 3, 3⟩ 0 100 1000 3600 ⟨0, 0, 4, 4⟩).max_lon ≤
        (⟨0, 0, 4, 4⟩ : BBox).max_lon ∧
      (partition_search_extent (fun _ => 1) ⟨1, 1, 3, 3⟩ 0 100 1000 3600 ⟨0, 0, 4, 4⟩).max_lat ≤
        (⟨0, 0, 4, 4⟩ : BBox).max_lat :=
  search_extent_within_domain (fun _ => 1) ⟨1, 1, 3, 3⟩ 0 100 1000 3600 ⟨0, 0, 4, 4⟩
    (by norm_num) (by norm_num)

/-- C5: evaluation at the failing input.  With a nonempty partition and
zero secondary points, the in-situ variant returns no matches without
error, but the gridded variant fails with the cKDTree dimension error
instead of returning no matches. -/
theorem zero_secondary_points_behavior :
    match_satellite_to_insitu_insitu [exTile] [] exPoly 1000 (fun q => q) = Except.ok [] ∧
      match_satellite_to_insitu_gridded [exTile] [] exPoly 1000 (fun q => q) =
        Except.error "data must be 2 dimensions" :=
  ⟨rfl, rfl⟩

theorem getD_map_range {α : Type} {n : ℕ} (f : ℕ → α) {i : ℕ} (d : α) (h : i < n) :
    ((List.range n).map f).getD i d = f i := by
  have hlen : i < ((List.range n).map f).length := by
    rw [List.length_map, List.length_range]; exact h
  rw [List.getD_eq_getElem _ _ hlen]
  simp

theorem masked_outside_valid (lo hi : ℚ) (arr : List (ℚ × Bool)) (i : ℕ)
    (h : maskAt (masked_outside lo hi arr) i = false) :
    lo ≤ valueAt (masked_outside lo hi arr) i ∧ valueAt (masked_outside lo hi arr) i ≤ hi := by
  by_cases hlen : i < arr.length
  · have hlen2 : i < (masked_outside lo hi arr).length := by
      unfold masked_outside; rw [List.length_map]; exact hlen
    unfold maskAt at h
    rw [List.getD_eq_getElem _ _ hlen2] at h
    unfold valueAt
    rw [List.getD_eq_getElem _ _ hlen2]
    unfold masked_outside at h ⊢
    rw [List.getElem_map] at h ⊢
    simp only [Bool.or_eq_false_iff, decide_eq_false_iff_not, not_lt] at h
    exact ⟨h.1.2, h.2⟩
  · exfalso
    unfold maskAt at h
    rw [List.getD_eq_default] at h
    · simp at h
    · unfold masked_outside; rw [List.length_map]; exact Nat.le_of_not_lt hlen

theorem mem_get_indices_iff (t : Tile) (ti li gi : ℕ) :
    (ti, li, gi) ∈ t.get_indices ↔
      ti < t.dataMask.length ∧ li < (t.dataMask.getD ti []).length ∧
        gi < ((t.dataMask.getD ti []).getD li []).length ∧ t.maskedAt ti li gi = false := by
  unfold Tile.get_indices Tile.maskedAt
  simp only [List.mem_flatMap, List.mem_filterMap, List.mem_range]
  constructor
  · rintro ⟨ti2, hti2, li2, hli2, gi2, hgi2, heq⟩
    by_cases hmask : ((t.dataMask.getD ti2 []).getD li2 []).getD gi2 true = true
    · rw [if_pos hmask] at heq; cases heq
    · rw [if_neg hmask] at heq
      have h3 := Option.some.inj heq
      simp only [Prod.mk.injEq] at h3
      obtain ⟨rfl, rfl, rfl⟩ := h3
      simp only [Bool.not_eq_true] at hmask
      exact ⟨hti2, hli2, hgi2, hmask⟩
  · rintro ⟨h1, h2, h3, h4⟩
    refine ⟨ti, h1, li, h2, gi, h3, ?_⟩
    rw [if_neg (by simpa using h4)]

/-- C6 counterexample: masking a tile to the triangle polygon succeeds
and keeps a valid sample that lies outside the triangle (it only lies
inside the triangle bounding box), so not every valid sample after
masking lies within the requested polygon. -/
theorem mask_to_polygon_counterexample :
    (match mask_tiles_to_polygon triPoly [c6Tile] with
      | Except.error _ => true
      | Except.ok ts =>
        ts.all (fun t =>
          t.get_indices.all (fun idx =>
            triPoly.containsConvexCCW
              (valueAt t.longitudes idx.2.2, valueAt t.latitudes idx.2.1)))) = false := by
  with_unfolding_all decide

theorem mem_mask_each_tile (mnlat mxlat mnlon mxlon : ℚ) :
    ∀ (tiles ts : List Tile),
      mask_each_tile mnlat mxlat mnlon mxlon tiles = Except.ok ts →
        ∀ t ∈ ts, ∃ t0, t0 ∈ tiles ∧
          mask_tile_to_bbox mnlat mxlat mnlon mxlon t0 = Except.ok t := by
  intro tiles
  induction tiles with
  | nil =>
    intro ts h t ht
    simp only [mask_each_tile] at h
    cases h
    cases ht
  | cons t0 rest ih =>
    intro ts h t ht
    simp only [mask_each_tile] at h
    split at h
    · cases h
    · rename_i t2 h0
      split at h
      · cases h
      · rename_i ts2 hr
        cases h
        rcases List.mem_cons.mp ht with h1 | h1
        · subst h1
          exact ⟨t0, List.mem_cons_self _ _, h0⟩
        · obtain ⟨t1, ht1, he1⟩ := ih ts2 hr t h1
          exact ⟨t1, List.mem_cons.mpr (Or.inr ht1), he1⟩

/-- C6 amended: for every tile that masking returns, a sample that
remains valid at data index (ti, li, gi) has the latitude at index ti
and the longitude at index li within the bounding box of the requested
polygon: the mask is broadcast with the latitude mask on the time axis
and the longitude mask on the latitude axis, so the bounds constrain
the mis-aligned indices; the valid sample itself is constrained to the
polygon bounding box only when its time and latitude indices agree with
its latitude and longitude indices (as in one-sample tiles). -/
theorem mask_misaligned_bbox_containment (poly : Poly) (tiles masked : List Tile)
    (t : Tile) (hm : mask_tiles_to_polygon poly tiles = Except.ok masked)
    (ht : t ∈ masked) (idx : ℕ × ℕ × ℕ)
    (hidx : idx ∈ t.get_indices) :
    poly.bounds.min_lat ≤ valueAt t.latitudes idx.1 ∧
      valueAt t.latitudes idx.1 ≤ poly.bounds.max_lat ∧
      poly.bounds.min_lon ≤ valueAt t.longitudes idx.2.1 ∧
      valueAt t.longitudes idx.2.1 ≤ poly.bounds.max_lon := by
  obtain ⟨a, b, c⟩ := idx
  simp only [mask_tiles_to_polygon, mask_tiles_to_bbox] at hm
  split at hm
  · cases hm
  · rename_i ts he
    cases hm
    have htts : t ∈ ts := (List.mem_filter.mp ht).1
    obtain ⟨t0, -, h0⟩ := mem_mask_each_tile _ _ _ _ tiles ts he t htts
    simp only [mask_tile_to_bbox] at h0
    split at h0
    · cases h0
    · rename_i s hs
      split at h0
      · rename_i hcond
        cases h0
        rw [mem_get_indices_iff] at hidx
        obtain ⟨h1, h2, h3, h4⟩ := hidx
        simp only [Tile.maskedAt] at h4
        dsimp only at h1 h2 h3 h4
        rw [List.length_map, List.length_range] at h1
        rw [getD_map_range _ _ h1] at h2 h3 h4
        rw [List.length_map, List.length_range] at h2
        rw [getD_map_range _ _ h2] at h3 h4
        rw [List.length_map, List.length_range] at h3
        rw [getD_map_range _ _ h3] at h4
        simp only [Bool.or_eq_false_iff] at h4
        obtain ⟨⟨hlat, hlon⟩, -⟩ := h4
        have hla := masked_outside_valid _ _ _ _ hlat
        have hlo := masked_outside_valid _ _ _ _ hlon
        exact ⟨hla.1, hla.2, hlo.1, hlo.2⟩
      · cases h0

/-- Witness for the amended C6 at a concrete input: masking the
one-sample exTile to the square polygon returns it unchanged, and its
valid sample indices are all zero, so the bounds apply to the sample
coordinates themselves. -/
theorem mask_misaligned_bbox_containment_witness :
    exPoly.bounds.min_lat ≤ valueAt exTile.latitudes 0 ∧
      valueAt exTile.latitudes 0 ≤ exPoly.bounds.max_lat ∧
      exPoly.bounds.min_lon ≤ valueAt exTile.longitudes 0 ∧
      valueAt exTile.longitudes 0 ≤ exPoly.bounds.max_lon :=
  mask_misaligned_bbox_containment exPoly [exTile] [exTile] exTile
    (by with_unfolding_all rfl) (by with_unfolding_all decide) (0, 0, 0)
    (by with_unfolding_all decide)

/-- C7: a tile whose masking succeeds with every sample masked is
skipped: the masked tile is dropped from the list, the generator
catches the resulting IndexError, yields no candidate pairs and raises
nothing, and the partition result is exactly the result of the other
tiles. -/
theorem fully_masked_tile_skipped (poly : Poly) (rt : ℚ) (proj : ℚ × ℚ → ℚ × ℚ)
    (m_points : List (ℚ × ℚ)) (edge_results : List EdgePoint) (tile t2 : Tile)
    (hok : mask_tile_to_bbox poly.bounds.min_lat poly.bounds.max_lat
        poly.bounds.min_lon poly.bounds.max_lon tile = Except.ok t2)
    (hall : t2.allMasked = true) :
    match_tile_to_point_generator poly rt proj m_points edge_results tile = [] ∧
      ∀ tiles1 tiles2 : List Tile,
        partition_matches poly rt proj m_points edge_results (tiles1 ++ tile :: tiles2) =
          partition_matches poly rt proj m_points edge_results tiles1 ++
            partition_matches poly rt proj m_points edge_results tiles2 := by
  have hempty : mask_tiles_to_polygon poly [tile] = Except.ok [] := by
    simp only [mask_tiles_to_polygon, mask_tiles_to_bbox, mask_each_tile]
    rw [hok]
    simp [hall]
  have hgen : match_tile_to_point_generator poly rt proj m_points edge_results tile = [] := by
    unfold match_tile_to_point_generator
    rw [hempty]
  refine ⟨hgen, fun tiles1 tiles2 => ?_⟩
  unfold partition_matches
  rw [List.flatMap_append, List.flatMap_cons, hgen]
  simp

/-- Witness for C7 at a concrete input: masking farTile to the square
polygon succeeds with everything masked, the generator yields nothing,
and the partition result is the result of the remaining tiles. -/
theorem fully_masked_tile_skipped_witness :
    match_tile_to_point_generator exPoly 1000 (fun q => q) [] [] farTile = [] ∧
      partition_matches exPoly 1000 (fun q => q) [] [] ([exTile] ++ farTile :: []) =
        partition_matches exPoly 1000 (fun q => q) [] [] [exTile] ++
          partition_matches exPoly 1000 (fun q => q) [] [] [] := by
  have h := fully_masked_tile_skipped exPoly 1000 (fun q => q) [] [] farTile farTileMasked
    (by with_unfolding_all rfl) (by with_unfolding_all decide)
  exact ⟨h.1, h.2 [exTile] []⟩

/-- C8: the partition count is between 8 and 128, monotone in the tile
count, deterministic (it is a function), and equals the tile count
divided by 140 when that quotient lies in the band. -/
theorem determine_parllelism_spec (N M : ℕ) (h : N ≤ M) :
    8 ≤ determine_parllelism N ∧ determine_parllelism N ≤ 128 ∧
      determine_parllelism N ≤ determine_parllelism M ∧
      (8 ≤ (N : ℚ) / 140 → (N : ℚ) / 140 ≤ 128 →
        determine_parllelism N = (N : ℚ) / 140) := by
  unfold determine_parllelism
  refine ⟨le_max_right _ _, ?_, ?_, ?_⟩
  · exact max_le (min_le_right _ _) (by norm_num)
  · have hq : (N : ℚ) / 140 ≤ (M : ℚ) / 140 := by
      have hnm : (N : ℚ) ≤ (M : ℚ) := by exact_mod_cast h
      linarith
    exact max_le_max (min_le_min hq le_rfl) le_rfl
  · intro h8 h128
    rw [min_eq_left h128, max_eq_left h8]

/-- Witness for C8 at a concrete input. -/
theorem determine_parllelism_spec_witness :
    8 ≤ determine_parllelism 1400 ∧ determine_parllelism 1400 ≤ 128 ∧
      determine_parllelism 1400 ≤ determine_parllelism 14000 ∧
      determine_parllelism 1400 = ((1400 : ℕ) : ℚ) / 140 := by
  have h := determine_parllelism_spec 1400 14000 (by norm_num)
  exact ⟨h.1, h.2.1, h.2.2.1, h.2.2.2 (by norm_num) (by norm_num)⟩

theorem query_edge_go_spec {α : Type} :
    ∀ (pages : List (EdgePage α)) (r : EdgePage α),
      chainNext pages = true → pages ≠ [] →
        ∃ r2, query_edge_go pages (some r) = some r2 ∧
          r2.results = r.results ++ (pages.map EdgePage.results).flatten := by
  intro pages
  induction pages with
  | nil => intro r _ hne; exact absurd rfl hne
  | cons p rest ih =>
    intro r hchain _
    cases rest with
    | nil =>
      have hnone : p.next = none := by
        have h1 : p.next.isNone = true := hchain
        exact Option.isNone_iff_eq_none.mp h1
      refine ⟨{ r with results := r.results ++ p.results }, ?_, by simp⟩
      show (match p.next with
          | none => some { r with results := r.results ++ p.results }
          | some u2 =>
            if u2 = "NA" then some { r with results := r.results ++ p.results }
            else query_edge_go [] (some { r with results := r.results ++ p.results }))
        = some { r with results := r.results ++ p.results }
      rw [hnone]
    | cons q rest2 =>
      have hchain2 : ((match p.next with
          | none => false
          | some u => decide (u ≠ "NA")) && chainNext (q :: rest2)) = true := hchain
      rw [Bool.and_eq_true] at hchain2
      obtain ⟨hp, hrest⟩ := hchain2
      cases hnext : p.next with
      | none => rw [hnext] at hp; exact Bool.noConfusion hp
      | some u =>
        have hu : u ≠ "NA" := by
          rw [hnext] at hp
          exact of_decide_eq_true hp
        obtain ⟨r2, hr2, hres⟩ := ih { r with results := r.results ++ p.results } hrest (by simp)
        refine ⟨r2, ?_, ?_⟩
        · show (match p.next with
              | none => some { r with results := r.results ++ p.results }
              | some u2 =>
                if u2 = "NA" then some { r with results := r.results ++ p.results }
                else query_edge_go (q :: rest2) (some { r with results := r.results ++ p.results }))
            = some r2
          rw [hnext]
          show (if u = "NA" then some { r with results := r.results ++ p.results }
              else query_edge_go (q :: rest2) (some { r with results := r.results ++ p.results }))
            = some r2
          rw [if_neg hu]
          exact hr2
        · rw [hres]
          simp

/-- C9: when every page but the last carries a continuation and the
last has none, query_edge returns a response whose results are the
in-order concatenation of the results of every served page. -/
theorem query_edge_pagination {α : Type} (pages : List (EdgePage α))
    (hne : pages ≠ []) (hchain : chainNext pages = true) :
    ∃ r, query_edge pages = some r ∧
      r.results = (pages.map EdgePage.results).flatten := by
  cases pages with
  | nil => exact absurd rfl hne
  | cons p rest =>
    cases rest with
    | nil =>
      have hnone : p.next = none := by
        have h1 : p.next.isNone = true := hchain
        exact Option.isNone_iff_eq_none.mp h1
      refine ⟨p, ?_, by simp⟩
      show (match p.next with
          | none => some p
          | some u2 =>
            if u2 = "NA" then some p
            else query_edge_go [] (some p))
        = some p
      rw [hnone]
    | cons q rest2 =>
      have hchain2 : ((match p.next with
          | none => false
          | some u => decide (u ≠ "NA")) && chainNext (q :: rest2)) = true := hchain
      rw [Bool.and_eq_true] at hchain2
      obtain ⟨hp, hrest⟩ := hchain2
      cases hnext : p.next with
      | none => rw [hnext] at hp; exact Bool.noConfusion hp
      | some u =>
        have hu : u ≠ "NA" := by
          rw [hnext] at hp
          exact of_decide_eq_true hp
        obtain ⟨r2, hr2, hres⟩ := query_edge_go_spec (q :: rest2) p hrest (by simp)
        refine ⟨r2, ?_, ?_⟩
        · show (match p.next with
              | none => some p
              | some u2 =>
                if u2 = "NA" then some p
                else query_edge_go (q :: rest2) (some p))
            = some r2
          rw [hnext]
          show (if u = "NA" then some p else query_edge_go (q :: rest2) (some p)) = some r2
          rw [if_neg hu]
          exact hr2
        · rw [hres]
          simp

/-- Witness for C9 at a concrete two-page sequence. -/
theorem query_edge_pagination_witness :
    ∃ r, query_edge wPages = some r ∧
      r.results = (wPages.map EdgePage.results).flatten :=
  query_edge_pagination wPages (by decide) (by decide)

/-- C10: with a positive result size limit smaller than the number of
primary matches, calc responds with status 202 and no result records;
otherwise (limit zero or match count within the limit) it responds with
the complete match list and no explicit status. -/
theorem calc_result_size_limit {α : Type} (match_list : List α) (result_size_limit : ℕ) :
    (0 < result_size_limit → result_size_limit < match_list.length →
      calc_result match_list result_size_limit =
        { results := none, status_code := some 202 }) ∧
      (result_size_limit = 0 ∨ match_list.length ≤ result_size_limit →
        calc_result match_list result_size_limit =
          { results := some match_list, status_code := none }) := by
  constructor
  · intro h1 h2
    unfold calc_result
    rw [if_pos ⟨h1, h2⟩]
  · intro h
    unfold calc_result
    rw [if_neg ?_]
    rintro ⟨hpos, hlt⟩
    rcases h with h | h
    · omega
    · omega

/-- Witness for C10 at concrete inputs: limit 2 on three matches gives
the empty 202 response, limit 0 gives the complete list. -/
theorem calc_result_size_limit_witness :
    calc_result [1, 2, 3] 2 = ({ results := none, status_code := some 202 } : DomsQueryResults ℕ) ∧
      calc_result [1, 2, 3] 0 =
        ({ results := some [1, 2, 3], status_code := none } : DomsQueryResults ℕ) :=
  ⟨(calc_result_size_limit [1, 2, 3] 2).1 (by norm_num) (by norm_num),
   (calc_result_size_limit [1, 2, 3] 0).2 (Or.inl rfl)⟩

end NexusMatchup
